import Mathlib

/-!
Shallow embedding of the citation-metadata core of the paper-rag-pipeline
repository (files `src/utils.py` and `src/metadata_extractor.py`), together
with theorems settling the specification claims about it.

Python strings are modelled as `List Char` (ASCII fragment), Python sets of
strings as `Finset (List Char)`, Python `None`-able values as `Option`, and
code that can raise an exception that is caught by a caller as a function
returning `Option`.  Network and third-party-library effects (requests,
pybtex, pdf2bib, PyMuPDF) are inputs: they are passed in as explicit oracle
arguments, while everything the repository itself computes is translated
from the source.
-/

/-- Python `str.isspace`-style whitespace set used by `\s`, `str.strip()` and
`str.split()` (ASCII fragment: space, tab, newline, vertical tab, form feed,
carriage return). -/
def pyIsSpace (c : Char) : Bool :=
  c == ' ' || c == '\t' || c == '\n' || c == Char.ofNat 11 || c == Char.ofNat 12 || c == '\r'

/-- Word characters of the regex class `\w` (ASCII fragment):
letters, digits and underscore. -/
def isWordChar (c : Char) : Bool :=
  c.isAlphanum || c == '_'

/-- `str.strip()`: drop leading and trailing whitespace. -/
def pyStrip (s : List Char) : List Char :=
  ((s.dropWhile pyIsSpace).reverse.dropWhile pyIsSpace).reverse

/-- `str.rstrip(chars)`: drop trailing characters belonging to `chars`. -/
def pyRstrip (s : List Char) (chars : List Char) : List Char :=
  (s.reverse.dropWhile (fun c => c ∈ chars)).reverse

/-- `str.split()` with no separator: split on whitespace runs, discarding
empty pieces.  Implemented as the recursive scan Python performs. -/
def pySplitWs : List Char → List (List Char)
  | [] => []
  | c :: rest =>
    if pyIsSpace c then pySplitWs rest
    else
      match pySplitWs rest with
      | [] => [[c]]
      | w :: ws =>
        match rest with
        | [] => [[c]]
        | d :: _ => if pyIsSpace d then [c] :: w :: ws else (c :: w) :: ws

/-- `str.split('\n')`: split at every newline; always returns at least one
piece (Python: `''.split('\n') == ['']`). -/
def pySplitNl : List Char → List (List Char)
  | [] => [[]]
  | c :: rest =>
    if c == '\n' then [] :: pySplitNl rest
    else
      match pySplitNl rest with
      | [] => [[c]]
      | l :: ls => (c :: l) :: ls

/-- The decimal digit character for `n < 10`. -/
def digitChar (n : Nat) : Char := Char.ofNat (48 + n)

/-- Decimal digits of a natural number, most significant first, with
structural fuel so that the kernel can evaluate it. -/
def natToDigits : Nat → Nat → List Char
  | 0, _ => []
  | fuel + 1, n => if n < 10 then [digitChar n] else natToDigits fuel (n / 10) ++ [digitChar (n % 10)]

/-- Python `str(n)` for a natural number. -/
def natToStr (n : Nat) : List Char := natToDigits (n + 1) n

/-- Python `str(i)` for an integer (`f"{year}"` formatting). -/
def intToStr (i : Int) : List Char :=
  if i < 0 then '-' :: natToStr (-i).toNat else natToStr i.toNat

/-!  `generate_bibtex_key` (src/utils.py lines 183-222).  -/

/-- Surname of the first author, as computed by `generate_bibtex_key`:
the part before the first comma (stripped) when a comma is present,
otherwise the last whitespace-delimited token (or "Unknown" when there is
none); afterwards the caller removes every non-letter. -/
def lastNameOf (firstAuthor : List Char) : List Char :=
  if ',' ∈ firstAuthor then
    pyStrip (firstAuthor.takeWhile (fun c => !(c == ',')))
  else
    match (pySplitWs firstAuthor).getLast? with
    | some part => part
    | none => "Unknown".data

/-- The base key `f"{last_name}{year}"` (or `f"Unknown{year}"` with no
authors); the surname is cleaned with `re.sub(r'[^a-zA-Z]', '', ...)`. -/
def baseKey (authors : List (List Char)) (year : Int) : List Char :=
  match authors with
  | [] => "Unknown".data ++ intToStr year
  | first :: _ => (lastNameOf first).filter Char.isAlpha ++ intToStr year

/-- The collision-resolution `while` loop of `generate_bibtex_key`.  The list
argument carries the successive values of the Python variable `suffix`
(`ord('a') .. ord('z')`); `key` is the loop variable.  Mirroring the source:
the new key `base + chr(suffix)` is built first, then `suffix` is
incremented, and when it passes `ord('z')` the key is overwritten with
`base + "_" + len(existing_keys)` and the loop breaks.  The `[]` case is
unreachable from `generateBibtexKey` because the break always fires at
suffix value 122. -/
def keyCollideGo (base : List Char) (keys : Finset (List Char)) : List Char → List Nat → List Char
  | key, [] => key
  | key, suffix :: rest =>
    if key ∈ keys then
      let key2 := base ++ [Char.ofNat suffix]
      if suffix + 1 > 122 then base ++ "_".data ++ natToStr keys.card
      else keyCollideGo base keys key2 rest
    else key

/-- `generate_bibtex_key(authors, year, existing_keys)`. -/
def generateBibtexKey (authors : List (List Char)) (year : Int) (keys : Finset (List Char)) : List Char :=
  keyCollideGo (baseKey authors year) keys (baseKey authors year) (List.range' 97 26)

/-- The lowercase letters `'a'..'z'` used for collision suffixes. -/
def lettersAtoZ : Finset Char :=
  {'a', 'b', 'c', 'd', 'e', 'f', 'g', 'h', 'i', 'j', 'k', 'l', 'm',
   'n', 'o', 'p', 'q', 'r', 's', 't', 'u', 'v', 'w', 'x', 'y', 'z'}

/-- The concrete key set for the collision bug: the base `Smith2024`, its
letter variants `a`-`y`, and the numeric fallback key `Smith2024_27`
(27 keys in total). -/
def smithKeys27 : Finset (List Char) :=
  (["Smith2024", "Smith2024a", "Smith2024b", "Smith2024c", "Smith2024d",
    "Smith2024e", "Smith2024f", "Smith2024g", "Smith2024h", "Smith2024i",
    "Smith2024j", "Smith2024k", "Smith2024l", "Smith2024m", "Smith2024n",
    "Smith2024o", "Smith2024p", "Smith2024q", "Smith2024r", "Smith2024s",
    "Smith2024t", "Smith2024u", "Smith2024v", "Smith2024w", "Smith2024x",
    "Smith2024y", "Smith2024_27"].map String.data).toFinset

/-- The concrete key set for the skipped-letter bug: the base `Smith2024`
and its letter variants `a`-`y` (26 keys, `Smith2024z` free). -/
def smithKeys26 : Finset (List Char) :=
  (["Smith2024", "Smith2024a", "Smith2024b", "Smith2024c", "Smith2024d",
    "Smith2024e", "Smith2024f", "Smith2024g", "Smith2024h", "Smith2024i",
    "Smith2024j", "Smith2024k", "Smith2024l", "Smith2024m", "Smith2024n",
    "Smith2024o", "Smith2024p", "Smith2024q", "Smith2024r", "Smith2024s",
    "Smith2024t", "Smith2024u", "Smith2024v", "Smith2024w", "Smith2024x",
    "Smith2024y"].map String.data).toFinset

/-!  Data model: `ExtractionMethod` and `PaperMetadata`
(src/metadata_extractor.py lines 34-60).  -/

/-- Enumeration of metadata extraction methods (`ExtractionMethod`).
`parsed` is the text-heuristic fallback's provenance tag. -/
inductive ExtractionMethod where
  | pdf2bib
  | crossref
  | arxiv
  | pubmed
  | pdf_metadata
  | parsed
  | manual
deriving DecidableEq

/-- The `PaperMetadata` dataclass: the Citation Record of the spec. -/
structure PaperMetadata where
  title : List Char
  authors : List (List Char)
  year : Int
  bibtex_key : List Char
  bibtex_entry : List Char
  journal : Option (List Char) := none
  volume : Option (List Char) := none
  pages : Option (List Char) := none
  doi : Option (List Char) := none
  url : Option (List Char) := none
  abstract : Option (List Char) := none
  publisher : Option (List Char) := none
  extraction_method : ExtractionMethod := ExtractionMethod.parsed
deriving DecidableEq

/-!  `_create_bibtex_entry` (src/metadata_extractor.py lines 564-591).  -/

/-- `_create_bibtex_entry`: build a BibTeX entry string.  `extras` carries
the `**kwargs` pairs in keyword order; a pair whose value is empty is
skipped (Python truthiness of the value). -/
def createBibtexEntry (entryType key title : List Char) (authors : List (List Char))
    (year : Int) (extras : List (List Char × List Char)) : List Char :=
  let authorStr := if authors = [] then "Unknown".data
    else (authors.intersperse " and ".data).flatten
  let entryLines :=
    [ '@' :: entryType ++ '{' :: key ++ [','],
      if title ≠ [] then "  title = ".data ++ '{' :: title ++ "\x7d,".data
        else "  title = \x7bUntitled\x7d,".data,
      if authorStr ≠ [] then "  author = ".data ++ '{' :: authorStr ++ "\x7d,".data
        else "  author = \x7bUnknown\x7d,".data,
      "  year = ".data ++ '{' :: intToStr year ++ "\x7d,".data ]
    ++ (extras.filterMap fun fv =>
          if fv.2 ≠ [] then some ("  ".data ++ fv.1 ++ " = ".data ++ '{' :: fv.2 ++ "\x7d,".data)
          else none)
    ++ ["\x7d".data]
  (entryLines.intersperse ['\n']).flatten

/-!  `_parse_metadata_from_text` (src/metadata_extractor.py lines 483-527):
the text-heuristic fallback strategy.  Its year comes from
`re.search(r'\b(19|20)\d{2}\b', text)`.  -/

/-- Whether the regex `\b(19|20)\d{2}\b` matches at position `i` of `t`:
four digits starting `19`/`20`, with word boundaries on both sides. -/
def yearMatchAt (t : List Char) (i : Nat) : Bool :=
  decide (i + 4 ≤ t.length) &&
  (decide (i = 0) || !isWordChar (t.getD (i - 1) ' ')) &&
  ((t.getD i ' ' == '1' && t.getD (i + 1) ' ' == '9') ||
   (t.getD i ' ' == '2' && t.getD (i + 1) ' ' == '0')) &&
  (t.getD (i + 2) ' ').isDigit && (t.getD (i + 3) ' ').isDigit &&
  (decide (i + 4 = t.length) || !isWordChar (t.getD (i + 4) ' '))

/-- `re.search`'s leftmost match position for the year pattern. -/
def findYearIdx (t : List Char) : Option Nat :=
  (List.range (t.length + 1)).find? (yearMatchAt t)

/-- `int(match.group(0))`: the numeric value of the four digits at `i`. -/
def yearValueAt (t : List Char) (i : Nat) : Int :=
  (1000 * ((t.getD i ' ').toNat - 48) + 100 * ((t.getD (i + 1) ' ').toNat - 48)
    + 10 * ((t.getD (i + 2) ' ').toNat - 48) + ((t.getD (i + 3) ' ').toNat - 48) : Nat)

/-- `_parse_metadata_from_text(text, pdf_path, existing_keys)`.  `pdfStem`
models `pdf_path.stem`.  The title is `lines[0] if lines else pdf_path.stem`
where `lines = text.split('\n')` — the split result is never the empty
list, so the `[]` arm mirrors Python's unreachable `else`. -/
def parseMetadataFromText (text pdfStem : List Char) (keys : Finset (List Char)) : PaperMetadata :=
  let title := match pySplitNl text with
    | [] => pdfStem
    | l :: _ => l
  let year : Int := match findYearIdx text with
    | some i => yearValueAt text i
    | none => 2024
  let authors := ["Unknown".data]
  let key := generateBibtexKey authors year keys
  { title := title
    authors := authors
    year := year
    bibtex_key := key
    bibtex_entry := createBibtexEntry "article".data key title authors year []
    extraction_method := ExtractionMethod.parsed }

/-- Declarative reading of the claim's "4-digit token beginning with 19 or
20 at position `i`": four digit characters, the first two being `19` or
`20`, delimited by non-word characters (or the ends of the text). -/
def YearTokenAt (t : List Char) (i : Nat) : Prop :=
  i + 4 ≤ t.length ∧
  (∀ j < 4, (t.getD (i + j) ' ').isDigit = true) ∧
  ((t.getD i ' ' = '1' ∧ t.getD (i + 1) ' ' = '9') ∨
   (t.getD i ' ' = '2' ∧ t.getD (i + 1) ' ' = '0')) ∧
  (i = 0 ∨ isWordChar (t.getD (i - 1) ' ') = false) ∧
  (i + 4 = t.length ∨ isWordChar (t.getD (i + 4) ' ') = false)

instance (t : List Char) (i : Nat) : Decidable (YearTokenAt t i) := by
  unfold YearTokenAt; infer_instance

/-!  `extract_doi_from_text` (src/utils.py lines 92-124).  -/

/-- Attempt of the pattern `10\.\d{4,}/[^\s]+` at the head of `l` (the
regex is deterministic here: `\d{4,}` greedily takes the maximal digit run,
which must be followed by `/`; `[^\s]+` takes the maximal non-space run).
Returns the matched text. -/
def doiCoreAt (l : List Char) : Option (List Char) :=
  match l with
  | '1' :: '0' :: '.' :: r =>
    let ds := r.takeWhile Char.isDigit
    if ds.length ≥ 4 then
      match r.dropWhile Char.isDigit with
      | '/' :: r2 =>
        let ss := r2.takeWhile (fun c => !pyIsSpace c)
        if ss ≠ [] then some ('1' :: '0' :: '.' :: ds ++ '/' :: ss) else none
      | _ => none
    else none
  | _ => none

/-- Attempt of `doi:\s*10\.\d{4,}/[^\s]+` (compiled with `re.IGNORECASE`,
so the literal `doi` matches caselessly) at the head of `l`. -/
def doiTaggedAt (l : List Char) : Option (List Char) :=
  match l with
  | c1 :: c2 :: c3 :: ':' :: r =>
    if c1.toLower == 'd' && c2.toLower == 'o' && c3.toLower == 'i' then
      let ws := r.takeWhile pyIsSpace
      match doiCoreAt (r.dropWhile pyIsSpace) with
      | some m => some (c1 :: c2 :: c3 :: ':' :: ws ++ m)
      | none => none
    else none
  | _ => none

/-- Attempt of `DOI:\s*10\.\d{4,}/[^\s]+` at the head of `l`; under
`re.IGNORECASE` this behaves exactly like the lowercase-tagged pattern. -/
def doiTaggedUpperAt (l : List Char) : Option (List Char) :=
  doiTaggedAt l

/-- `re.search`: try the head-matcher at every position, leftmost first. -/
def reSearchGo (core : List Char → Option (List Char)) (t : List Char) : List Nat → Option (List Char)
  | [] => none
  | i :: rest =>
    match core (t.drop i) with
    | some m => some m
    | none => reSearchGo core t rest

/-- `re.search(pattern, text)` over all start positions of `t`. -/
def reSearch (core : List Char → Option (List Char)) (t : List Char) : Option (List Char) :=
  reSearchGo core t (List.range (t.length + 1))

/-- `re.sub(r'^(doi|DOI):\s*', '', doi)`: strip a case-sensitive `doi:` or
`DOI:` tag (plus following whitespace) from the front of the match. -/
def dropDoiTag (m : List Char) : List Char :=
  match m with
  | 'd' :: 'o' :: 'i' :: ':' :: r => r.dropWhile pyIsSpace
  | 'D' :: 'O' :: 'I' :: ':' :: r => r.dropWhile pyIsSpace
  | _ => m

/-- The post-processing applied to a raw pattern match: strip the tag, then
`doi.rstrip('.,;:')`. -/
def cleanDoiMatch (m : List Char) : List Char :=
  pyRstrip (dropDoiTag m) [',', '.', ';', ':']

/-- `extract_doi_from_text(text)`: try the three patterns in order and
post-process the first match. -/
def extractDoiFromText (t : List Char) : Option (List Char) :=
  match reSearch doiCoreAt t with
  | some m => some (cleanDoiMatch m)
  | none =>
    match reSearch doiTaggedAt t with
    | some m => some (cleanDoiMatch m)
    | none =>
      match reSearch doiTaggedUpperAt t with
      | some m => some (cleanDoiMatch m)
      | none => none

/-!  `extract_arxiv_id_from_text` and `extract_pubmed_id_from_text`
(src/utils.py lines 127-180).  -/

/-- Case-insensitively consume the literal `lit` from the head of `l`,
returning the remainder. -/
def dropLitCI : List Char → List Char → Option (List Char)
  | [], l => some l
  | _ :: _, [] => none
  | c :: cs, x :: xs => if x.toLower == c.toLower then dropLitCI cs xs else none

/-- The group `(\d{4}\.\d{4,5})` at the head of `l`: exactly four digits, a
dot, then four or five digits (greedy).  Returns the group text. -/
def arxivGroupAt (l : List Char) : Option (List Char) :=
  match l with
  | a :: b :: c :: d :: '.' :: r =>
    if a.isDigit && b.isDigit && c.isDigit && d.isDigit then
      let ds := r.takeWhile Char.isDigit
      if ds.length ≥ 4 then some ([a, b, c, d] ++ '.' :: ds.take 5) else none
    else none
  | _ => none

/-- Attempt of `arXiv:\s*(\d{4}\.\d{4,5})` (IGNORECASE) at the head of `l`,
returning `group(1)`. -/
def arxivTagAt (l : List Char) : Option (List Char) :=
  match dropLitCI "arxiv:".data l with
  | some r => arxivGroupAt (r.dropWhile pyIsSpace)
  | none => none

/-- Attempt of `arxiv\.org/abs/(\d{4}\.\d{4,5})` (IGNORECASE) at the head
of `l`, returning `group(1)`. -/
def arxivUrlAt (l : List Char) : Option (List Char) :=
  match dropLitCI "arxiv.org/abs/".data l with
  | some r => arxivGroupAt r
  | none => none

/-- `extract_arxiv_id_from_text(text)`. -/
def extractArxivIdFromText (t : List Char) : Option (List Char) :=
  match reSearch arxivTagAt t with
  | some m => some m
  | none =>
    match reSearch arxivUrlAt t with
    | some m => some m
    | none => none

/-- The group `(\d{7,8})` at the head of `l`: seven or eight digits
(greedy). -/
def pmidGroupAt (l : List Char) : Option (List Char) :=
  let ds := l.takeWhile Char.isDigit
  if ds.length ≥ 7 then some (ds.take 8) else none

/-- Attempt of `PMID:\s*(\d{7,8})` (IGNORECASE) at the head of `l`. -/
def pmidTagAt (l : List Char) : Option (List Char) :=
  match dropLitCI "pmid:".data l with
  | some r => pmidGroupAt (r.dropWhile pyIsSpace)
  | none => none

/-- Attempt of `pubmed\.ncbi\.nlm\.nih\.gov/(\d{7,8})` (IGNORECASE) at the
head of `l`. -/
def pmidUrlAt (l : List Char) : Option (List Char) :=
  match dropLitCI "pubmed.ncbi.nlm.nih.gov/".data l with
  | some r => pmidGroupAt r
  | none => none

/-- `extract_pubmed_id_from_text(text)`. -/
def extractPubmedIdFromText (t : List Char) : Option (List Char) :=
  match reSearch pmidTagAt t with
  | some m => some m
  | none =>
    match reSearch pmidUrlAt t with
    | some m => some m
    | none => none

/-!  `_parse_bibtex_entry` (src/metadata_extractor.py lines 529-562).
The pybtex string parser is a third-party library; its output — one entry
with its author persons and its field dictionary — is modelled by
`BibEntryRepr`, produced by an oracle `List Char → Option BibEntryRepr`
(`none` covers both a parse exception and an empty entry list).  The
repository's own field extraction on top of it is `parseFields`.  -/

/-- A parsed BibTeX entry as pybtex hands it back: the stringified
`persons['author']` list and the field dictionary. -/
structure BibEntryRepr where
  authors : List (List Char)
  fields : List (List Char × List Char)
deriving DecidableEq

/-- `fields.get(k)` on the field dictionary. -/
def fieldGet (k : List Char) (fs : List (List Char × List Char)) : Option (List Char) :=
  (fs.find? (fun p => p.1 == k)).map (fun p => p.2)

/-- Python `int(s)` on a string: optional surrounding whitespace, optional
sign, then a non-empty digit run; anything else raises `ValueError`
(modelled as `none`).  (Underscore digit separators are not modelled.) -/
def pyInt (s : List Char) : Option Int :=
  let t := pyStrip s
  let digitsVal : List Char → Option Int := fun ds =>
    if ds ≠ [] ∧ ds.all Char.isDigit then
      some (ds.foldl (fun acc c => 10 * acc + ((c.toNat : Int) - 48)) 0)
    else none
  match t with
  | '+' :: r => digitsVal r
  | '-' :: r => (digitsVal r).map Int.neg
  | r => digitsVal r

/-- The canonical field set produced by `_parse_bibtex_entry`. -/
structure ParsedFields where
  title : List Char
  authors : List (List Char)
  year : Int
  journal : Option (List Char)
  volume : Option (List Char)
  pages : Option (List Char)
  publisher : Option (List Char)
  doi : Option (List Char)
deriving DecidableEq

/-- The dictionary built by `_parse_bibtex_entry` from a parsed entry:
`int(fields.get('year', 2024))` defaults a missing year to 2024 but raises
on a present, unparseable year string; the raise is caught by the
function's `except` clause, which returns `None`. -/
def parseFields (e : BibEntryRepr) : Option ParsedFields :=
  let yearVal : Option Int :=
    match fieldGet "year".data e.fields with
    | none => some 2024
    | some s => pyInt s
  match yearVal with
  | none => none
  | some y =>
    some { title := (fieldGet "title".data e.fields).getD []
           authors := e.authors
           year := y
           journal := fieldGet "journal".data e.fields
           volume := fieldGet "volume".data e.fields
           pages := fieldGet "pages".data e.fields
           publisher := fieldGet "publisher".data e.fields
           doi := fieldGet "doi".data e.fields }

/-- `_parse_bibtex_entry` as a whole: pybtex parse (the oracle `reprO`)
followed by the repository's field extraction. -/
def parseBibtexEntryWith (reprO : List Char → Option BibEntryRepr) (s : List Char) : Option ParsedFields :=
  (reprO s).bind parseFields

/-!  `_replace_bibtex_key` (src/metadata_extractor.py lines 593-599):
`re.sub(r'(@\w+\{)[^,]+,', r'\g<1>' + new_key + ',', entry, count=1)`.  -/

/-- Attempt of `(@\w+\{)[^,]+,` at the head of `l`: returns the
group-1 text `@word{` and the remainder after the matched comma. -/
def subHeadAt (l : List Char) : Option (List Char × List Char) :=
  match l with
  | '@' :: r =>
    let w := r.takeWhile isWordChar
    if w = [] then none
    else
      match r.dropWhile isWordChar with
      | '{' :: r2 =>
        let kp := r2.takeWhile (fun c => !(c == ','))
        if kp = [] then none
        else
          match r2.dropWhile (fun c => !(c == ',')) with
          | ',' :: r3 => some ('@' :: w ++ ['{'], r3)
          | _ => none
      | _ => none
  | _ => none

/-- The scan of `re.sub(..., count=1)`: find the leftmost match, emit the
group-1 backreference, the new key and a comma, and keep the rest of the
string; with no match the string is returned unchanged. -/
def reSubKeyGo (newKey : List Char) : List Char → List Char
  | [] => []
  | c :: rest =>
    match subHeadAt (c :: rest) with
    | some gr => gr.1 ++ newKey ++ ',' :: gr.2
    | none => c :: reSubKeyGo newKey rest

/-- `_replace_bibtex_key(bibtex_entry, new_key)`. -/
def replaceBibtexKey (entry newKey : List Char) : List Char :=
  reSubKeyGo newKey entry

/-- Modelled from the spec: the "key embedded in the `structured_entry`
string" — the text between the first `@word{` head and the next comma or
closing brace.  This is the spec-side reading used to compare a record's
`key` field with its inline key. -/
def specEmbeddedKey : List Char → Option (List Char)
  | [] => none
  | c :: rest =>
    match
      (match c :: rest with
       | '@' :: r =>
         let w := r.takeWhile isWordChar
         if w = [] then none
         else
           match r.dropWhile isWordChar with
           | '{' :: r2 => some r2
           | _ => none
       | _ => none : Option (List Char)) with
    | some r2 => some (r2.takeWhile (fun c => !(c == ',' || c == '}')))
    | none => specEmbeddedKey rest

/-!  `_get_metadata_from_crossref` (src/metadata_extractor.py lines
267-335).  The network is an oracle `resps : Nat → CrossrefResp` giving the
outcome of the attempt-`i` HTTP request; `retry_delay` is modelled as a
rational (the float arithmetic `retry_delay * (2 ** attempt)` is exact for
the attempt range involved).  -/

/-- Outcome of one `session.get` call: a raised `requests.RequestException`,
or a response with a status code and body text. -/
inductive CrossrefResp where
  | exn
  | status (code : Nat) (body : List Char)
deriving DecidableEq

/-- Observable network events of the lookup: one `request` per
`session.get`, one `sleep d` per `time.sleep(d)`. -/
inductive NetEvent where
  | request
  | sleep (d : ℚ)
deriving DecidableEq

/-- The successful-response body of the lookup: build the record from the
parsed fields, generating the key and substituting it into the entry. -/
def buildCrossrefMeta (doi : List Char) (keys : Finset (List Char)) (body : List Char)
    (p : ParsedFields) : PaperMetadata :=
  let key := generateBibtexKey p.authors p.year keys
  { title := p.title
    authors := p.authors
    year := p.year
    bibtex_key := key
    bibtex_entry := replaceBibtexKey body key
    journal := p.journal
    volume := p.volume
    pages := p.pages
    doi := some doi
    url := some ("https://doi.org/".data ++ doi)
    publisher := p.publisher
    extraction_method := ExtractionMethod.crossref }

/-- The `for attempt in range(self.max_retries)` loop of
`_get_metadata_from_crossref`.  `attempt` is the loop index, `remaining`
the number of iterations left (`max_retries - attempt`).  A 200 response
whose body parses returns the record; 404 returns `None` at once; any
other status falls through to the next attempt; a transport exception
sleeps `retry_delay * 2^attempt` first unless this was the last attempt. -/
def crossrefGo (maxRetries : Nat) (retryDelay : ℚ) (doi : List Char) (keys : Finset (List Char))
    (reprO : List Char → Option BibEntryRepr) (resps : Nat → CrossrefResp) :
    Nat → Nat → Option PaperMetadata × List NetEvent
  | _, 0 => (none, [])
  | attempt, remaining + 1 =>
    match resps attempt with
    | CrossrefResp.status code body =>
      if code = 200 then
        match parseBibtexEntryWith reprO body with
        | some p => (some (buildCrossrefMeta doi keys body p), [NetEvent.request])
        | none =>
          let r := crossrefGo maxRetries retryDelay doi keys reprO resps (attempt + 1) remaining
          (r.1, NetEvent.request :: r.2)
      else if code = 404 then (none, [NetEvent.request])
      else
        let r := crossrefGo maxRetries retryDelay doi keys reprO resps (attempt + 1) remaining
        (r.1, NetEvent.request :: r.2)
    | CrossrefResp.exn =>
      let sleeps : List NetEvent :=
        if attempt < maxRetries - 1 then [NetEvent.sleep (retryDelay * 2 ^ attempt)] else []
      let r := crossrefGo maxRetries retryDelay doi keys reprO resps (attempt + 1) remaining
      (r.1, NetEvent.request :: (sleeps ++ r.2))

/-- `_get_metadata_from_crossref(doi, existing_keys)` with its retry loop,
returning the result together with the network-event trace. -/
def getMetadataFromCrossref (maxRetries : Nat) (retryDelay : ℚ) (doi : List Char)
    (keys : Finset (List Char)) (reprO : List Char → Option BibEntryRepr)
    (resps : Nat → CrossrefResp) : Option PaperMetadata × List NetEvent :=
  crossrefGo maxRetries retryDelay doi keys reprO resps 0 maxRetries

/-- An attempt outcome on which the loop goes on to the next attempt:
a transport exception, a 200 whose body does not parse, or any status
other than 200 and 404. -/
def nonDecisive (reprO : List Char → Option BibEntryRepr) (r : CrossrefResp) : Bool :=
  match r with
  | CrossrefResp.exn => true
  | CrossrefResp.status code body =>
    if code = 200 then (parseBibtexEntryWith reprO body).isNone
    else if code = 404 then false
    else true

/-!  `extract_metadata` (src/metadata_extractor.py lines 100-165): the
resolution orchestrator.  The strategies with external effects (pdf2bib,
CrossRef, arXiv, PDF properties) are oracles recording what the
corresponding `_get_metadata_from_*` / `_extract_from_pdf_metadata` call
would return; the PubMed stub and the text heuristic are repository code
and are embedded.  The returned trace lists the strategies invoked, in
order.  -/

/-- The six strategies of the cascade. -/
inductive Strategy where
  | pdf2bib
  | crossref
  | arxiv
  | pubmed
  | pdfMeta
  | heuristic
deriving DecidableEq

/-- The canonical strategy order of the cascade. -/
def strategyOrder : List Strategy :=
  [Strategy.pdf2bib, Strategy.crossref, Strategy.arxiv, Strategy.pubmed,
   Strategy.pdfMeta, Strategy.heuristic]

/-- Oracles for the externally-effectful strategy calls. -/
structure ExtractEnv where
  pdf2bibAvailable : Bool
  pdf2bib : Option PaperMetadata
  crossref : List Char → Option PaperMetadata
  arxiv : List Char → Option PaperMetadata
  pdfMeta : Option PaperMetadata

/-- Python truthiness of an `Optional[str]`: `None` and `""` are falsy. -/
def pyTruthy (o : Option (List Char)) : Bool :=
  match o with
  | none => false
  | some s => !s.isEmpty

/-- `_get_metadata_from_pubmed` (lines 406-423): an explicit stub that
always returns `None`. -/
def getMetadataFromPubmed (_pmid : List Char) (_keys : Finset (List Char)) : Option PaperMetadata :=
  none

/-- Strategy 6: document-text parsing, `first_pages_text or ""`. -/
def extractStep6 (stem : List Char) (text : Option (List Char)) (keys : Finset (List Char))
    (tr : List Strategy) : PaperMetadata × List Strategy :=
  (parseMetadataFromText (text.getD []) stem keys, tr ++ [Strategy.heuristic])

/-- Strategy 5: PDF document properties. -/
def extractStep5 (env : ExtractEnv) (stem : List Char) (text : Option (List Char))
    (keys : Finset (List Char)) (tr : List Strategy) : PaperMetadata × List Strategy :=
  match env.pdfMeta with
  | some m => (m, tr ++ [Strategy.pdfMeta])
  | none => extractStep6 stem text keys (tr ++ [Strategy.pdfMeta])

/-- Strategy 4: PubMed (guarded by text truthiness and a found PMID). -/
def extractStep4 (env : ExtractEnv) (stem : List Char) (text : Option (List Char))
    (keys : Finset (List Char)) (tr : List Strategy) : PaperMetadata × List Strategy :=
  match (if pyTruthy text then extractPubmedIdFromText (text.getD []) else none) with
  | some pmid =>
    if !pmid.isEmpty then
      match getMetadataFromPubmed pmid keys with
      | some m => (m, tr ++ [Strategy.pubmed])
      | none => extractStep5 env stem text keys (tr ++ [Strategy.pubmed])
    else extractStep5 env stem text keys tr
  | none => extractStep5 env stem text keys tr

/-- Strategy 3: arXiv (guarded by text truthiness and a found arXiv ID). -/
def extractStep3 (env : ExtractEnv) (stem : List Char) (text : Option (List Char))
    (keys : Finset (List Char)) (tr : List Strategy) : PaperMetadata × List Strategy :=
  match (if pyTruthy text then extractArxivIdFromText (text.getD []) else none) with
  | some aid =>
    if !aid.isEmpty then
      match env.arxiv aid with
      | some m => (m, tr ++ [Strategy.arxiv])
      | none => extractStep4 env stem text keys (tr ++ [Strategy.arxiv])
    else extractStep4 env stem text keys tr
  | none => extractStep4 env stem text keys tr

/-- Strategy 2: DOI + CrossRef (guarded by text truthiness and a found
DOI). -/
def extractStep2 (env : ExtractEnv) (stem : List Char) (text : Option (List Char))
    (keys : Finset (List Char)) (tr : List Strategy) : PaperMetadata × List Strategy :=
  match (if pyTruthy text then extractDoiFromText (text.getD []) else none) with
  | some doi =>
    if !doi.isEmpty then
      match env.crossref doi with
      | some m => (m, tr ++ [Strategy.crossref])
      | none => extractStep3 env stem text keys (tr ++ [Strategy.crossref])
    else extractStep3 env stem text keys tr
  | none => extractStep3 env stem text keys tr

/-- `extract_metadata(pdf_path, first_pages_text, existing_keys)`:
run the strategy cascade, returning the record and the list of strategies
invoked. -/
def extractMetadata (env : ExtractEnv) (stem : List Char) (text : Option (List Char))
    (keysArg : Option (Finset (List Char))) : PaperMetadata × List Strategy :=
  let keys := keysArg.getD ∅
  if env.pdf2bibAvailable then
    match env.pdf2bib with
    | some m => (m, [Strategy.pdf2bib])
    | none => extractStep2 env stem text keys [Strategy.pdf2bib]
  else extractStep2 env stem text keys []

/-!  Concrete records and oracles used by witnesses and counterexamples.  -/

/-- A sample Citation Record standing for a successful CrossRef lookup. -/
def sampleMeta : PaperMetadata :=
  { title := "T".data, authors := ["A".data], year := 2020,
    bibtex_key := "A2020".data, bibtex_entry := [],
    extraction_method := ExtractionMethod.crossref }

/-- A sample strategy environment: no pdf2bib, a CrossRef oracle that
succeeds exactly on the DOI `10.1234/ab`, and failing arXiv/PDF-property
strategies. -/
def sampleEnv : ExtractEnv :=
  { pdf2bibAvailable := false, pdf2bib := none,
    crossref := fun d => if d = "10.1234/ab".data then some sampleMeta else none,
    arxiv := fun _ => none, pdfMeta := none }

/-- Number of `request` events in a network-event trace. -/
def requestCount (l : List NetEvent) : Nat :=
  l.countP fun e => match e with
    | NetEvent.request => true
    | NetEvent.sleep _ => false

/-- A pybtex oracle that parses the field-less, comma-less entry
`@article{k}` — which pybtex accepts: the entry list holds one entry with
key `k`, no persons and no fields — and nothing else. -/
def cexReprO : List Char → Option BibEntryRepr :=
  fun s => if s = "@article\x7bk\x7d".data then some ⟨[], []⟩ else none

/-- A network oracle answering every attempt with a 200 response whose
body is the entry `@article{k}`. -/
def cexResps : Nat → CrossrefResp :=
  fun _ => CrossrefResp.status 200 "@article\x7bk\x7d".data

/-!  Helper lemmas.  -/

/-- The collision loop returns the numeric fallback whenever the incoming
key and every letter variant `a`-`y` reachable from the current suffix are
taken: the loop never tests the `z` variant before breaking. -/
theorem keyCollideGo_exhausted (base : List Char) (keys : Finset (List Char)) :
    ∀ n s key, 97 ≤ s → s ≤ 122 → s + n = 123 → key ∈ keys →
      (∀ k, s ≤ k → k ≤ 121 → base ++ [Char.ofNat k] ∈ keys) →
      keyCollideGo base keys key (List.range' s n) = base ++ "_".data ++ natToStr keys.card := by
  intro n
  induction n with
  | zero => intro s key h97 h122 hsum _ _; omega
  | succ m ih =>
    intro s key h97 h122 hsum hk hall
    rw [List.range'_succ]
    show keyCollideGo base keys key (s :: List.range' (s + 1) m) = _
    rw [keyCollideGo, if_pos hk]
    by_cases hs : s = 122
    · subst hs
      simp
    · have hs121 : s ≤ 121 := by omega
      rw [if_neg (by omega)]
      exact ih (s + 1) (base ++ [Char.ofNat s]) (by omega) (by omega) (by omega)
        (hall s le_rfl hs121) (fun k hk1 hk2 => hall k (by omega) hk2)

theorem lettersAtoZ_card : lettersAtoZ.card = 26 := by decide

/-- `YearTokenAt` is the propositional reading of the `yearMatchAt`
regex-match test. -/
theorem yearMatchAt_iff (t : List Char) (i : Nat) :
    yearMatchAt t i = true ↔ YearTokenAt t i := by
  unfold yearMatchAt YearTokenAt
  simp only [Bool.and_eq_true, Bool.or_eq_true, decide_eq_true_eq, beq_iff_eq,
    Bool.not_eq_true']
  constructor
  · rintro ⟨⟨⟨⟨⟨hlen, hb1⟩, hpat⟩, h2⟩, h3⟩, hb2⟩
    refine ⟨hlen, ?_, ?_, hb1, hb2⟩
    · intro j hj
      interval_cases j
      · rw [Nat.add_zero]
        rcases hpat with ⟨h, _⟩ | ⟨h, _⟩ <;> rw [h] <;> decide
      · rcases hpat with ⟨_, h⟩ | ⟨_, h⟩ <;> rw [h] <;> decide
      · exact h2
      · exact h3
    · rcases hpat with ⟨h1, h2⟩ | ⟨h1, h2⟩
      · exact Or.inl ⟨h1, h2⟩
      · exact Or.inr ⟨h1, h2⟩
  · rintro ⟨hlen, hdig, hpat, hb1, hb2⟩
    refine ⟨⟨⟨⟨⟨hlen, hb1⟩, ?_⟩, ?_⟩, ?_⟩, hb2⟩
    · rcases hpat with ⟨h1, h2⟩ | ⟨h1, h2⟩
      · exact Or.inl ⟨h1, h2⟩
      · exact Or.inr ⟨h1, h2⟩
    · have := hdig 2 (by omega); simpa using this
    · have := hdig 3 (by omega); simpa using this

/-- `List.find?` over `List.range` returns the least index satisfying the
predicate. -/
theorem find?_range_eq_some_of_least (n : Nat) (p : Nat → Bool) (i : Nat)
    (hi : i < n) (hp : p i = true) (hleast : ∀ j, j < i → p j = false) :
    (List.range n).find? p = some i := by
  rw [List.find?_eq_some_iff_getElem]
  refine ⟨hp, i, by simpa using hi, by simp, ?_⟩
  intro j hj
  have hj' : j < n := by omega
  simp only [List.getElem_range]
  simp [hleast j (by simpa using hj)]

/-!  Claim theorems.  -/

/-- C1 (code bug): `generate_bibtex_key` can return a key that is already a
member of `existing_keys`.  With the base `Smith2024`, the letter variants
`a`-`y` and the fallback key `Smith2024_27` all taken (27 keys), the
numeric fallback `base + "_" + len(existing_keys)` is produced without any
membership check, returning `Smith2024_27` — a key that is in the set —
contradicting the claimed (and docstring-promised) freshness. -/
theorem c1_generate_key_not_fresh :
    generateBibtexKey ["Smith".data] 2024 smithKeys27 = "Smith2024_27".data ∧
    "Smith2024_27".data ∈ smithKeys27 ∧ smithKeys27.card = 27 := by decide

/-- C4 (code bug): with the base `Smith2024` and variants `a`-`y` taken
(26 keys) and `Smith2024z` free, the loop falls back to
`Smith2024_26` instead of returning the free letter variant
`Smith2024z`: the `suffix > ord('z')` check fires after building the `z`
key but before testing its membership, so the `z` variant is never
returned. -/
theorem c4_letter_z_skipped :
    generateBibtexKey ["Smith".data] 2024 smithKeys26 = "Smith2024_26".data ∧
    "Smith2024z".data ∉ smithKeys26 ∧ "Smith2024".data ∈ smithKeys26 ∧
    smithKeys26.card = 26 := by decide

/-- C5 (confirmed): when `existing_keys` holds exactly the base key and all
26 letter variants `a`-`z` (27 keys), the next call for the same base
returns the count-based fallback `base + "_" + 27`, not a 27th letter. -/
theorem c5_collision_exhaustion (authors : List (List Char)) (year : Int) :
    (insert (baseKey authors year) (lettersAtoZ.image fun c => baseKey authors year ++ [c])).card = 27 ∧
    generateBibtexKey authors year
        (insert (baseKey authors year) (lettersAtoZ.image fun c => baseKey authors year ++ [c]))
      = baseKey authors year ++ "_27".data := by
  set b := baseKey authors year with hb
  have hnot : b ∉ lettersAtoZ.image fun c => b ++ [c] := by
    intro hmem
    rcases Finset.mem_image.mp hmem with ⟨c, _, hc⟩
    have := congrArg List.length hc
    simp at this
  have hcard : (insert b (lettersAtoZ.image fun c => b ++ [c])).card = 27 := by
    rw [Finset.card_insert_of_not_mem hnot,
      Finset.card_image_of_injOn (fun c _ d _ h => by
        have := List.append_cancel_left h
        simpa using this),
      lettersAtoZ_card]
  refine ⟨hcard, ?_⟩
  unfold generateBibtexKey
  rw [← hb]
  rw [keyCollideGo_exhausted b _ 26 97 b (by omega) (by omega) (by omega)
    (Finset.mem_insert_self b _) ?letters]
  case letters =>
    intro k hk1 hk2
    refine Finset.mem_insert_of_mem (Finset.mem_image.mpr ⟨Char.ofNat k, ?_, rfl⟩)
    interval_cases k <;> decide
  rw [hcard]
  simp [List.append_assoc]
  decide

/-- C7 (code bug): the text-heuristic title is `lines[0]` of
`text.split('\n')`, and in Python that split never yields an empty list, so
the `pdf_path.stem` fallback is dead code: with empty text the title is the
empty string, not the filename stem, and with a leading newline the title
is the (empty) first line, not the first non-empty line. -/
theorem c7_title_fallback_dead :
    (parseMetadataFromText [] "mypaper".data ∅).title = [] ∧
    "mypaper".data ≠ ([] : List Char) ∧
    (parseMetadataFromText "\nReal Title 2020".data "p".data ∅).title = [] := by decide

/-- C3 (confirmed): for every text and stem the text-heuristic strategy
(total, hence never raising) returns a record tagged with the text-parse
provenance, the sentinel `["Unknown"]` author list, and as year the value
of the first 19xx/20xx 4-digit token of the text, or 2024 when there is no
such token. -/
theorem c3_text_heuristic (text stem : List Char) (keys : Finset (List Char)) :
    (parseMetadataFromText text stem keys).extraction_method = ExtractionMethod.parsed ∧
    (parseMetadataFromText text stem keys).authors = ["Unknown".data] ∧
    ((∀ i, ¬ YearTokenAt text i) → (parseMetadataFromText text stem keys).year = 2024) ∧
    (∀ i, YearTokenAt text i → (∀ j, j < i → ¬ YearTokenAt text j) →
      (parseMetadataFromText text stem keys).year = yearValueAt text i) := by
  refine ⟨rfl, rfl, ?_, ?_⟩
  · intro h
    have hnone : findYearIdx text = none := by
      apply List.find?_eq_none.mpr
      intro x _
      intro hx
      exact h x ((yearMatchAt_iff text x).mp hx)
    simp [parseMetadataFromText, hnone]
  · intro i hi hleast
    have hsome : findYearIdx text = some i := by
      apply find?_range_eq_some_of_least
      · have := hi.1; omega
      · exact (yearMatchAt_iff text i).mpr hi
      · intro j hj
        by_contra hc
        exact hleast j hj ((yearMatchAt_iff text j).mp (by simpa using hc))
    simp [parseMetadataFromText, hsome]

/-- Witness for C3 at the text `"Published 2019."`: the year token at
position 10 is found and the year is 2019. -/
theorem c3_text_heuristic_witness :
    (parseMetadataFromText "Published 2019.".data "p".data ∅).year = 2019 := by
  have h := (c3_text_heuristic "Published 2019.".data "p".data ∅).2.2.2 10
    (by decide) (by decide)
  rw [h]
  decide

/-- C8 counterexample: an entry whose `year` field is present but not
parseable as an integer makes `int(fields.get('year', 2024))` raise, and
the surrounding `except` clause fails the whole entry (returns `None`)
instead of defaulting the year to 2024. -/
theorem c8_year_unparseable_cex :
    parseFields ⟨["Doe, J.".data], [("title".data, "T".data), ("year".data, "n.d.".data)]⟩ = none ∧
    fieldGet "year".data [("title".data, "T".data), ("year".data, "n.d.".data)] = some "n.d.".data := by
  decide

/-- C8 (corrected): an absent year field is defaulted to the sentinel 2024
and normalization succeeds; a present but unparseable year field makes
normalization of the entry fail (return `None`) rather than default. -/
theorem c8_year_default_amended (e : BibEntryRepr) :
    (fieldGet "year".data e.fields = none →
      ∃ p, parseFields e = some p ∧ p.year = 2024) ∧
    (∀ s, fieldGet "year".data e.fields = some s → pyInt s = none →
      parseFields e = none) := by
  constructor
  · intro h
    simp only [parseFields, h]
    exact ⟨_, rfl, rfl⟩
  · intro s hs hn
    simp [parseFields, hs, hn]

/-- Witness for C8 at concrete entries: a missing year yields 2024; the
unparseable year `"n.d."` fails the entry. -/
theorem c8_year_default_witness :
    (∃ p, parseFields ⟨[], [("title".data, "T".data)]⟩ = some p ∧ p.year = 2024) ∧
    parseFields ⟨[], [("year".data, "n.d.".data)]⟩ = none := by
  refine ⟨(c8_year_default_amended ⟨[], [("title".data, "T".data)]⟩).1 (by decide),
    (c8_year_default_amended ⟨[], [("year".data, "n.d.".data)]⟩).2 "n.d.".data (by decide) (by decide)⟩

/-!  Lemmas about `pyRstrip`, `reSearchGo` and the DOI patterns.  -/

theorem dropWhile_cons_head {p : Char → Bool} :
    ∀ {l : List Char} {c : Char} {r : List Char}, l.dropWhile p = c :: r → p c = false := by
  intro l
  induction l with
  | nil => intro c r h; simp at h
  | cons a l ih =>
    intro c r h
    rw [List.dropWhile_cons] at h
    by_cases ha : p a = true
    · rw [if_pos ha] at h; exact ih h
    · rw [if_neg ha] at h
      cases h
      simpa using ha

theorem pyRstrip_getLast_not_mem (s chars : List Char) (c : Char)
    (h : (pyRstrip s chars).getLast? = some c) : c ∉ chars := by
  unfold pyRstrip at h
  rw [List.getLast?_reverse] at h
  rcases hd : s.reverse.dropWhile (fun c => decide (c ∈ chars)) with _ | ⟨a, r⟩
  · rw [hd] at h; simp at h
  · rw [hd] at h
    simp only [List.head?_cons, Option.some_inj] at h
    subst h
    have := dropWhile_cons_head hd
    simpa using this

theorem dropWhile_append_stop {p : Char → Bool} (c : Char) (hc : p c = false) :
    ∀ (l1 l2 : List Char), (l1 ++ c :: l2).dropWhile p = l1.dropWhile p ++ c :: l2 := by
  intro l1
  induction l1 with
  | nil => intro l2; simp [List.dropWhile_cons, hc]
  | cons a l1 ih =>
    intro l2
    rw [List.cons_append, List.dropWhile_cons, List.dropWhile_cons]
    by_cases ha : p a = true
    · rw [if_pos ha, if_pos ha]; exact ih l2
    · rw [if_neg ha, if_neg ha, List.cons_append]

theorem pyRstrip_append_cons (xs ys : List Char) (c : Char) (chars : List Char)
    (hc : c ∉ chars) : pyRstrip (xs ++ c :: ys) chars = xs ++ c :: pyRstrip ys chars := by
  unfold pyRstrip
  rw [List.reverse_append, List.reverse_cons, List.append_assoc, List.singleton_append,
    dropWhile_append_stop c (by simpa using hc), List.reverse_append, List.reverse_cons,
    List.reverse_reverse, List.append_assoc, List.singleton_append]

theorem reSearchGo_eq_some (core : List Char → Option (List Char)) (t : List Char) :
    ∀ idxs m, reSearchGo core t idxs = some m → ∃ i ∈ idxs, core (t.drop i) = some m := by
  intro idxs
  induction idxs with
  | nil => intro m h; simp [reSearchGo] at h
  | cons i rest ih =>
    intro m h
    rw [reSearchGo] at h
    rcases h0 : core (t.drop i) with _ | m0
    · rw [h0] at h
      rcases ih m h with ⟨j, hj, hcore⟩
      exact ⟨j, List.mem_cons_of_mem i hj, hcore⟩
    · rw [h0] at h
      cases h
      exact ⟨i, List.mem_cons_self i rest, h0⟩

theorem reSearchGo_eq_none (core : List Char → Option (List Char)) (t : List Char) :
    ∀ idxs, reSearchGo core t idxs = none → ∀ i ∈ idxs, core (t.drop i) = none := by
  intro idxs
  induction idxs with
  | nil => intro _ i hi; simp at hi
  | cons j rest ih =>
    intro h i hi
    rw [reSearchGo] at h
    rcases h0 : core (t.drop j) with _ | m0
    · rw [h0] at h
      rcases List.mem_cons.mp hi with rfl | hi'
      · exact h0
      · exact ih h i hi'
    · rw [h0] at h; cases h

theorem exists_drop_dropWhile (p : Char → Bool) :
    ∀ l : List Char, ∃ k, l.dropWhile p = l.drop k := by
  intro l
  induction l with
  | nil => exact ⟨0, rfl⟩
  | cons a l ih =>
    by_cases ha : p a = true
    · rcases ih with ⟨k, hk⟩
      exact ⟨k + 1, by rw [List.dropWhile_cons, if_pos ha, List.drop_succ_cons, hk]⟩
    · exact ⟨0, by rw [List.dropWhile_cons, if_neg ha, List.drop_zero]⟩

theorem doiCoreAt_shape (l m : List Char) (h : doiCoreAt l = some m) :
    ∃ ds ss, m = '1' :: '0' :: '.' :: ds ++ '/' :: ss := by
  unfold doiCoreAt at h
  split at h
  · dsimp only at h
    split at h
    · split at h
      · split at h
        · exact ⟨_, _, (Option.some_inj.mp h).symm⟩
        · exact absurd h (by simp)
      · exact absurd h (by simp)
    · exact absurd h (by simp)
  · exact absurd h (by simp)

theorem doiTaggedAt_to_core (l m : List Char) (h : doiTaggedAt l = some m) :
    ∃ k m2, doiCoreAt (l.drop k) = some m2 := by
  unfold doiTaggedAt at h
  split at h
  next c1 c2 c3 r =>
    split at h
    · split at h
      next m0 hcore =>
        rcases exists_drop_dropWhile pyIsSpace r with ⟨k, hk⟩
        refine ⟨4 + k, m0, ?_⟩
        have hr : (c1 :: c2 :: c3 :: ':' :: r).drop (4 + k) = r.drop k := by
          simp [List.drop_succ_cons, Nat.add_comm, List.drop_drop]
        rw [hr, ← hk, hcore]
      · exact absurd h (by simp)
    · exact absurd h (by simp)
  · exact absurd h (by simp)

theorem doiCore_search_none_elim (t : List Char) (hn : reSearch doiCoreAt t = none)
    (j : Nat) (m2 : List Char) (hc : doiCoreAt (t.drop j) = some m2) : False := by
  by_cases hj : j ≤ t.length
  · have hmem : j ∈ List.range (t.length + 1) := List.mem_range.mpr (by omega)
    have := reSearchGo_eq_none doiCoreAt t _ hn j hmem
    rw [this] at hc; cases hc
  · have : t.drop j = [] := List.drop_eq_nil_of_le (by omega)
    rw [this] at hc
    cases hc

/-- Every successful `extract_doi_from_text` result starts with `10.` (so no
`doi:`/`DOI:` tag survives) and carries no trailing `. , ; :` character. -/
theorem extractDoi_some_shape (t d : List Char) (h : extractDoiFromText t = some d) :
    "10.".data <+: d ∧ ∀ c, d.getLast? = some c → c ∉ [',', '.', ';', ':'] := by
  unfold extractDoiFromText at h
  rcases e1 : reSearch doiCoreAt t with _ | m
  · rw [e1] at h
    rcases e2 : reSearch doiTaggedAt t with _ | m
    · rw [e2] at h
      rcases e3 : reSearch doiTaggedUpperAt t with _ | m
      · rw [e3] at h; cases h
      · rcases reSearchGo_eq_some doiTaggedUpperAt t _ m e3 with ⟨i, _, hcore⟩
        rcases doiTaggedAt_to_core _ m hcore with ⟨k, m2, hc⟩
        rw [List.drop_drop] at hc
        exact (doiCore_search_none_elim t e1 _ m2 hc).elim
    · rcases reSearchGo_eq_some doiTaggedAt t _ m e2 with ⟨i, _, hcore⟩
      rcases doiTaggedAt_to_core _ m hcore with ⟨k, m2, hc⟩
      rw [List.drop_drop] at hc
      exact (doiCore_search_none_elim t e1 _ m2 hc).elim
  · rw [e1] at h
    have hd : d = cleanDoiMatch m := (Option.some_inj.mp h).symm
    rcases reSearchGo_eq_some doiCoreAt t _ m e1 with ⟨i, _, hcore⟩
    rcases doiCoreAt_shape _ m hcore with ⟨ds, ss, hm⟩
    subst hm
    have htag : dropDoiTag ('1' :: '0' :: '.' :: ds ++ '/' :: ss)
        = '1' :: '0' :: '.' :: ds ++ '/' :: ss := rfl
    have hclean : cleanDoiMatch ('1' :: '0' :: '.' :: ds ++ '/' :: ss)
        = pyRstrip ('1' :: '0' :: '.' :: ds ++ '/' :: ss) [',', '.', ';', ':'] := by
      unfold cleanDoiMatch
      rw [htag]
    constructor
    · rw [hd, hclean]
      have hshape : ('1' :: '0' :: '.' :: ds ++ '/' :: ss)
          = ('1' :: '0' :: '.' :: ds) ++ '/' :: ss := by simp
      rw [hshape, pyRstrip_append_cons _ _ _ _ (by decide)]
      exact ⟨ds ++ '/' :: pyRstrip ss [',', '.', ';', ':'], by simp⟩
    · intro c hc
      rw [hd, hclean] at hc
      exact pyRstrip_getLast_not_mem _ _ c hc

/-- C10 (confirmed): `extract_doi_from_text("See doi: 10.1234/abcd.5678.")`
returns exactly `10.1234/abcd.5678`, and in general every returned DOI
starts with `10.` (any `doi:`/`DOI:` tag is gone) and has no trailing
sentence punctuation `. , ; :`. -/
theorem c10_doi_extraction :
    extractDoiFromText "See doi: 10.1234/abcd.5678.".data = some "10.1234/abcd.5678".data ∧
    ∀ t d, extractDoiFromText t = some d →
      "10.".data <+: d ∧ ∀ c, d.getLast? = some c → c ∉ [',', '.', ';', ':'] :=
  ⟨by decide, fun t d h => extractDoi_some_shape t d h⟩

/-- Witness for C10 at the text `"x doi:10.9999/ab,c;"`, whose extracted
DOI is `10.9999/ab,c`. -/
theorem c10_doi_extraction_witness :
    "10.".data <+: "10.9999/ab,c".data ∧
    (∀ c, "10.9999/ab,c".data.getLast? = some c → c ∉ [',', '.', ';', ':']) :=
  c10_doi_extraction.2 "x doi:10.9999/ab,c;".data "10.9999/ab,c".data (by decide)

/-!  Lemmas about the strategy cascade.  -/

theorem extractStep6_trace (stem : List Char) (text : Option (List Char))
    (keys : Finset (List Char)) (tr : List Strategy) :
    (extractStep6 stem text keys tr).2 = tr ++ [Strategy.heuristic] := rfl

theorem extractStep5_trace (env : ExtractEnv) (stem : List Char) (text : Option (List Char))
    (keys : Finset (List Char)) (tr : List Strategy) :
    ∃ s, (extractStep5 env stem text keys tr).2 = tr ++ s ∧
      s.Sublist [Strategy.pdfMeta, Strategy.heuristic] := by
  rcases h : env.pdfMeta with _ | m
  · refine ⟨[Strategy.pdfMeta, Strategy.heuristic], ?_, List.Sublist.refl _⟩
    simp [extractStep5, h, extractStep6_trace]
  · exact ⟨[Strategy.pdfMeta], by simp [extractStep5, h], by simp⟩

theorem extractStep4_trace (env : ExtractEnv) (stem : List Char) (text : Option (List Char))
    (keys : Finset (List Char)) (tr : List Strategy) :
    ∃ s, (extractStep4 env stem text keys tr).2 = tr ++ s ∧
      s.Sublist [Strategy.pubmed, Strategy.pdfMeta, Strategy.heuristic] := by
  unfold extractStep4
  rcases hg : (if pyTruthy text then extractPubmedIdFromText (text.getD []) else none) with _ | pmid
  · rcases extractStep5_trace env stem text keys tr with ⟨s, hs, hsub⟩
    exact ⟨s, hs, hsub.cons _⟩
  · by_cases hne : pmid.isEmpty
    · rcases extractStep5_trace env stem text keys tr with ⟨s, hs, hsub⟩
      refine ⟨s, ?_, hsub.cons _⟩
      simp [hne, hs]
    · rcases extractStep5_trace env stem text keys (tr ++ [Strategy.pubmed]) with ⟨s, hs, hsub⟩
      refine ⟨Strategy.pubmed :: s, ?_, hsub.cons₂ _⟩
      simp only [Bool.not_eq_true] at hne
      simp [hne, getMetadataFromPubmed, hs, List.append_assoc]

theorem extractStep3_trace (env : ExtractEnv) (stem : List Char) (text : Option (List Char))
    (keys : Finset (List Char)) (tr : List Strategy) :
    ∃ s, (extractStep3 env stem text keys tr).2 = tr ++ s ∧
      s.Sublist [Strategy.arxiv, Strategy.pubmed, Strategy.pdfMeta, Strategy.heuristic] := by
  unfold extractStep3
  rcases hg : (if pyTruthy text then extractArxivIdFromText (text.getD []) else none) with _ | aid
  · rcases extractStep4_trace env stem text keys tr with ⟨s, hs, hsub⟩
    exact ⟨s, hs, hsub.cons _⟩
  · by_cases hne : aid.isEmpty
    · rcases extractStep4_trace env stem text keys tr with ⟨s, hs, hsub⟩
      refine ⟨s, ?_, hsub.cons _⟩
      simp [hne, hs]
    · simp only [Bool.not_eq_true] at hne
      rcases ha : env.arxiv aid with _ | m
      · rcases extractStep4_trace env stem text keys (tr ++ [Strategy.arxiv]) with ⟨s, hs, hsub⟩
        refine ⟨Strategy.arxiv :: s, ?_, hsub.cons₂ _⟩
        simp [hne, ha, hs, List.append_assoc]
      · exact ⟨[Strategy.arxiv], by simp [hne, ha], by simp⟩

theorem extractStep2_trace (env : ExtractEnv) (stem : List Char) (text : Option (List Char))
    (keys : Finset (List Char)) (tr : List Strategy) :
    ∃ s, (extractStep2 env stem text keys tr).2 = tr ++ s ∧
      s.Sublist [Strategy.crossref, Strategy.arxiv, Strategy.pubmed, Strategy.pdfMeta,
        Strategy.heuristic] := by
  unfold extractStep2
  rcases hg : (if pyTruthy text then extractDoiFromText (text.getD []) else none) with _ | doi
  · rcases extractStep3_trace env stem text keys tr with ⟨s, hs, hsub⟩
    exact ⟨s, hs, hsub.cons _⟩
  · by_cases hne : doi.isEmpty
    · rcases extractStep3_trace env stem text keys tr with ⟨s, hs, hsub⟩
      refine ⟨s, ?_, hsub.cons _⟩
      simp [hne, hs]
    · simp only [Bool.not_eq_true] at hne
      rcases hc : env.crossref doi with _ | m
      · rcases extractStep3_trace env stem text keys (tr ++ [Strategy.crossref]) with ⟨s, hs, hsub⟩
        refine ⟨Strategy.crossref :: s, ?_, hsub.cons₂ _⟩
        simp [hne, hc, hs, List.append_assoc]
      · exact ⟨[Strategy.crossref], by simp [hne, hc], by simp⟩

/-- C2 (confirmed): the cascade invokes strategies only in the fixed order
pdf2bib, CrossRef, arXiv, PubMed, PDF-properties, text-heuristic (the
invocation trace is a sublist of that order), and when the pdf2bib strategy
yields nothing, the text is present, a DOI is found and the CrossRef lookup
succeeds, the result is the CrossRef record and the arXiv, PubMed,
PDF-properties and text-heuristic strategies are never invoked. -/
theorem c2_strategy_cascade (env : ExtractEnv) (stem : List Char) (text : Option (List Char))
    (keysArg : Option (Finset (List Char))) :
    (extractMetadata env stem text keysArg).2.Sublist strategyOrder ∧
    (∀ d m, (env.pdf2bibAvailable = true → env.pdf2bib = none) →
      pyTruthy text = true →
      extractDoiFromText (text.getD []) = some d →
      env.crossref d = some m →
      (extractMetadata env stem text keysArg).1 = m ∧
      (extractMetadata env stem text keysArg).2
        = (if env.pdf2bibAvailable then [Strategy.pdf2bib] else []) ++ [Strategy.crossref] ∧
      Strategy.arxiv ∉ (extractMetadata env stem text keysArg).2 ∧
      Strategy.pubmed ∉ (extractMetadata env stem text keysArg).2 ∧
      Strategy.pdfMeta ∉ (extractMetadata env stem text keysArg).2 ∧
      Strategy.heuristic ∉ (extractMetadata env stem text keysArg).2) := by
  constructor
  · unfold extractMetadata
    rcases hav : env.pdf2bibAvailable
    · simp only [Bool.false_eq_true, if_false]
      rcases extractStep2_trace env stem text (keysArg.getD ∅) [] with ⟨s, hs, hsub⟩
      rw [hs]
      exact (hsub.cons Strategy.pdf2bib).trans (List.Sublist.refl _)
    · simp only [if_true]
      rcases hpb : env.pdf2bib with _ | m
      · rcases extractStep2_trace env stem text (keysArg.getD ∅) [Strategy.pdf2bib] with ⟨s, hs, hsub⟩
        rw [hs]
        exact hsub.cons₂ Strategy.pdf2bib
      · exact List.Sublist.cons₂ _ (List.nil_sublist _)
  · intro d m hpb ht hd hc
    have hdne : d.isEmpty = false := by
      rcases (extractDoi_some_shape _ _ hd).1 with ⟨tl, htl⟩
      rcases d with _ | ⟨a, d⟩
      · simp at htl
      · rfl
    have hmain : extractMetadata env stem text keysArg
        = (m, (if env.pdf2bibAvailable then [Strategy.pdf2bib] else []) ++ [Strategy.crossref]) := by
      unfold extractMetadata extractStep2
      rcases hav : env.pdf2bibAvailable
      · simp [ht, hd, hdne, hc]
      · rw [hpb hav]
        simp [ht, hd, hdne, hc]
    rw [hmain]
    rcases hav : env.pdf2bibAvailable <;> simp

/-- Witness for C2: with `sampleEnv` and a text containing the DOI
`10.1234/ab`, the cascade returns the CrossRef record and never reaches the
later strategies. -/
theorem c2_strategy_cascade_witness :
    (extractMetadata sampleEnv "p".data (some "see 10.1234/ab 2020".data) none).1 = sampleMeta ∧
    Strategy.heuristic ∉ (extractMetadata sampleEnv "p".data (some "see 10.1234/ab 2020".data) none).2 := by
  have h := (c2_strategy_cascade sampleEnv "p".data (some "see 10.1234/ab 2020".data) none).2
    "10.1234/ab".data sampleMeta (by decide) (by decide) (by decide) (by decide)
  exact ⟨h.1, h.2.2.2.2.2⟩

/-!  Lemmas about the CrossRef retry loop.  -/

theorem requestCount_nil : requestCount [] = 0 := rfl

theorem requestCount_cons_request (l : List NetEvent) :
    requestCount (NetEvent.request :: l) = requestCount l + 1 := by
  simp [requestCount, List.countP_cons]

theorem requestCount_cons_sleep (q : ℚ) (l : List NetEvent) :
    requestCount (NetEvent.sleep q :: l) = requestCount l := by
  simp [requestCount, List.countP_cons]

theorem requestCount_append (a b : List NetEvent) :
    requestCount (a ++ b) = requestCount a + requestCount b := by
  simp [requestCount, List.countP_append]

theorem crossrefGo_requestCount_le (M : Nat) (d : ℚ) (doi : List Char)
    (keys : Finset (List Char)) (reprO : List Char → Option BibEntryRepr)
    (resps : Nat → CrossrefResp) :
    ∀ rem attempt, requestCount (crossrefGo M d doi keys reprO resps attempt rem).2 ≤ rem := by
  intro rem
  induction rem with
  | zero => intro attempt; simp [crossrefGo, requestCount]
  | succ m ih =>
    intro attempt
    rw [crossrefGo]
    rcases hr : resps attempt with _ | ⟨code, body⟩
    · have := ih (attempt + 1)
      by_cases hs : attempt < M - 1 <;>
        simp [hs, requestCount_cons_request, requestCount_append, requestCount_cons_sleep] <;>
        omega
    · by_cases h200 : code = 200
    
      · rcases hp : parseBibtexEntryWith reprO body with _ | p
        · have := ih (attempt + 1)
          simp [h200, hp, requestCount_cons_request]
          omega
        · simp [h200, hp, requestCount_cons_request, requestCount_nil]
      · by_cases h404 : code = 404
        · simp [h200, h404, requestCount_cons_request, requestCount_nil]
        · have := ih (attempt + 1)
          simp [h200, h404, requestCount_cons_request]
          omega

theorem crossrefGo_requestCount_pos (M : Nat) (d : ℚ) (doi : List Char)
    (keys : Finset (List Char)) (reprO : List Char → Option BibEntryRepr)
    (resps : Nat → CrossrefResp) (rem attempt : Nat) (hrem : 1 ≤ rem) :
    1 ≤ requestCount (crossrefGo M d doi keys reprO resps attempt rem).2 := by
  rcases rem with _ | m
  · omega
  rw [crossrefGo]
  rcases hr : resps attempt with _ | ⟨code, body⟩
  · by_cases hs : attempt < M - 1 <;>
      simp [hs, requestCount_cons_request, requestCount_append, requestCount_cons_sleep]
  · by_cases h200 : code = 200
    · rcases hp : parseBibtexEntryWith reprO body with _ | p <;>
        simp [h200, hp, requestCount_cons_request, requestCount_nil]
    · by_cases h404 : code = 404 <;>
        simp [h200, h404, requestCount_cons_request, requestCount_nil]

theorem crossrefGo_skip (M : Nat) (d : ℚ) (doi : List Char)
    (keys : Finset (List Char)) (reprO : List Char → Option BibEntryRepr)
    (resps : Nat → CrossrefResp) :
    ∀ (j rem attempt), j ≤ rem →
      (∀ k, k < j → nonDecisive reprO (resps (attempt + k)) = true) →
      ∃ pre, crossrefGo M d doi keys reprO resps attempt rem
          = ((crossrefGo M d doi keys reprO resps (attempt + j) (rem - j)).1,
             pre ++ (crossrefGo M d doi keys reprO resps (attempt + j) (rem - j)).2)
        ∧ requestCount pre = j := by
  intro j
  induction j with
  | zero => intro rem attempt _ _; exact ⟨[], by simp, rfl⟩
  | succ n ih =>
    intro rem attempt hle hnd
    rcases rem with _ | m
    · omega
    have h0 : nonDecisive reprO (resps attempt) = true := by
      have := hnd 0 (by omega)
      simpa using this
    have hnd' : ∀ k, k < n → nonDecisive reprO (resps (attempt + 1 + k)) = true := by
      intro k hk
      have h := hnd (k + 1) (by omega)
      rwa [show attempt + (k + 1) = attempt + 1 + k by omega] at h
    have hidx : attempt + (n + 1) = attempt + 1 + n := by omega
    have hrem : m + 1 - (n + 1) = m - n := by omega
    rcases ih m (attempt + 1) (by omega) hnd' with ⟨pre, hpre, hcount⟩
    rw [crossrefGo]
    rcases hr : resps attempt with _ | ⟨code, body⟩
    · refine ⟨NetEvent.request ::
        ((if attempt < M - 1 then [NetEvent.sleep (d * 2 ^ attempt)] else []) ++ pre), ?_, ?_⟩
      · simp only [hidx, hrem, hpre]
        simp [List.append_assoc]
      · by_cases hs : attempt < M - 1 <;>
          simp [hs, requestCount_cons_request, requestCount_append, requestCount_cons_sleep, hcount]
    · rw [hr] at h0
      simp only [nonDecisive] at h0
      by_cases h200 : code = 200
      · rw [if_pos h200] at h0
        have hp : parseBibtexEntryWith reprO body = none := by
          rcases hp : parseBibtexEntryWith reprO body with _ | p
          · rfl
          · rw [hp] at h0; simp at h0
        refine ⟨NetEvent.request :: pre, ?_, by simp [requestCount_cons_request, hcount]⟩
        simp only [hidx, hrem]
        simp [h200, hp, hpre, List.append_assoc]
      · rw [if_neg h200] at h0
        by_cases h404 : code = 404
        · rw [if_pos h404] at h0; cases h0
        · refine ⟨NetEvent.request :: pre, ?_, by simp [requestCount_cons_request, hcount]⟩
          simp only [hidx, hrem]
          simp [h200, h404, hpre, List.append_assoc]

/-- C6 (confirmed): with the default bound of 3, the CrossRef lookup makes
at most 3 request attempts; a 404 response at a reached attempt `i` ends
the lookup at once with failure and exactly `i + 1` requests; a transport
failure at a reached attempt `i` that is not the last is followed by a
sleep of `retry_delay * 2^i`; and any other non-success status at a
reached, non-final attempt is retried (at least one further request is
made). -/
theorem c6_crossref_retry (delay : ℚ) (doi : List Char) (keys : Finset (List Char))
    (reprO : List Char → Option BibEntryRepr) (resps : Nat → CrossrefResp) :
    requestCount (getMetadataFromCrossref 3 delay doi keys reprO resps).2 ≤ 3 ∧
    (∀ i body, i < 3 → (∀ k, k < i → nonDecisive reprO (resps k) = true) →
      resps i = CrossrefResp.status 404 body →
      (getMetadataFromCrossref 3 delay doi keys reprO resps).1 = none ∧
      requestCount (getMetadataFromCrossref 3 delay doi keys reprO resps).2 = i + 1) ∧
    (∀ i, i < 2 → (∀ k, k < i → nonDecisive reprO (resps k) = true) →
      resps i = CrossrefResp.exn →
      NetEvent.sleep (delay * 2 ^ i) ∈ (getMetadataFromCrossref 3 delay doi keys reprO resps).2) ∧
    (∀ i code body, i + 1 < 3 → (∀ k, k < i → nonDecisive reprO (resps k) = true) →
      resps i = CrossrefResp.status code body → code ≠ 200 → code ≠ 404 →
      i + 2 ≤ requestCount (getMetadataFromCrossref 3 delay doi keys reprO resps).2) := by
  have hskip : ∀ i, i ≤ 3 → (∀ k, k < i → nonDecisive reprO (resps k) = true) →
      ∃ pre, getMetadataFromCrossref 3 delay doi keys reprO resps
          = ((crossrefGo 3 delay doi keys reprO resps i (3 - i)).1,
             pre ++ (crossrefGo 3 delay doi keys reprO resps i (3 - i)).2)
        ∧ requestCount pre = i := by
    intro i hi hnd
    have := crossrefGo_skip 3 delay doi keys reprO resps i 3 0 hi
      (fun k hk => by simpa using hnd k hk)
    simpa [getMetadataFromCrossref] using this
  refine ⟨?_, ?_, ?_, ?_⟩
  · exact crossrefGo_requestCount_le 3 delay doi keys reprO resps 3 0
  · intro i body hi hnd h404
    rcases hskip i (by omega) hnd with ⟨pre, heq, hcount⟩
    have hstep : crossrefGo 3 delay doi keys reprO resps i (3 - i) = (none, [NetEvent.request]) := by
      have h3 : 3 - i = (2 - i) + 1 := by omega
      rw [h3, crossrefGo, h404]
      simp
    rw [heq, hstep]
    simp [requestCount_append, requestCount_cons_request, requestCount_nil, hcount]
  · intro i hi hnd hexn
    rcases hskip i (by omega) hnd with ⟨pre, heq, _⟩
    have h3 : 3 - i = (1 - i) + 1 + 1 := by omega
    rw [heq, h3, crossrefGo, hexn]
    have hlt : i < 3 - 1 := by omega
    simp only [hlt, if_pos, if_true]
    simp
  · intro i code body hi hnd hst h200 h404
    rcases hskip i (by omega) hnd with ⟨pre, heq, hcount⟩
    have h3 : 3 - i = (1 - i) + 1 + 1 := by omega
    rw [heq, h3, crossrefGo, hst]
    dsimp only
    rw [if_neg h200, if_neg h404]
    have hpos := crossrefGo_requestCount_pos 3 delay doi keys reprO resps ((1 - i) + 1) (i + 1) (by omega)
    simp only [requestCount_append, requestCount_cons_request, hcount]
    omega

/-- Witness for C6: a first-attempt 404 ends the lookup with one request;
a first-attempt transport failure is followed by a sleep of
`1 * 2^0`. -/
theorem c6_crossref_retry_witness :
    (getMetadataFromCrossref 3 1 "10.1/x".data ∅ (fun _ => none)
        (fun _ => CrossrefResp.status 404 [])).1 = none ∧
    requestCount (getMetadataFromCrossref 3 1 "10.1/x".data ∅ (fun _ => none)
        (fun _ => CrossrefResp.status 404 [])).2 = 1 ∧
    NetEvent.sleep (1 * 2 ^ 0) ∈ (getMetadataFromCrossref 3 1 "10.1/x".data ∅ (fun _ => none)
        (fun _ => CrossrefResp.exn)).2 := by
  have h1 := (c6_crossref_retry 1 "10.1/x".data ∅ (fun _ => none)
    (fun _ => CrossrefResp.status 404 [])).2.1 0 [] (by omega)
    (fun k hk => absurd hk (Nat.not_lt_zero k)) rfl
  have h2 := (c6_crossref_retry 1 "10.1/x".data ∅ (fun _ => none)
    (fun _ => CrossrefResp.exn)).2.2.1 0 (by omega)
    (fun k hk => absurd hk (Nat.not_lt_zero k)) rfl
  exact ⟨h1.1, h1.2, h2⟩

/-!  Lemmas about `takeWhile`/`dropWhile` decompositions and the embedded
citation key.  -/

theorem mem_takeWhile_pred {p : Char → Bool} :
    ∀ {l : List Char} {c : Char}, c ∈ l.takeWhile p → p c = true := by
  intro l
  induction l with
  | nil => intro c hc; simp at hc
  | cons a l ih =>
    intro c hc
    rw [List.takeWhile_cons] at hc
    by_cases ha : p a = true
    · rw [if_pos ha] at hc
      rcases List.mem_cons.mp hc with rfl | hc'
      · exact ha
      · exact ih hc'
    · rw [if_neg ha] at hc; simp at hc

theorem takeWhile_all_append {p : Char → Bool} (xs : List Char)
    (h : ∀ c ∈ xs, p c = true) (y : Char) (hy : p y = false) (ys : List Char) :
    (xs ++ y :: ys).takeWhile p = xs := by
  induction xs with
  | nil => simp [List.takeWhile_cons, hy]
  | cons a l ih =>
    rw [List.cons_append, List.takeWhile_cons, if_pos (h a (List.mem_cons_self a l))]
    rw [ih (fun c hc => h c (List.mem_cons_of_mem a hc))]

theorem dropWhile_all_append {p : Char → Bool} (xs : List Char)
    (h : ∀ c ∈ xs, p c = true) (y : Char) (hy : p y = false) (ys : List Char) :
    (xs ++ y :: ys).dropWhile p = y :: ys := by
  induction xs with
  | nil => simp [List.dropWhile_cons, hy]
  | cons a l ih =>
    rw [List.cons_append, List.dropWhile_cons, if_pos (h a (List.mem_cons_self a l))]
    exact ih (fun c hc => h c (List.mem_cons_of_mem a hc))

theorem flatten_intersperse_cons (sep a : List Char) (ls : List (List Char)) :
    ((a :: ls).intersperse sep).flatten
      = a ++ (if ls.isEmpty then [] else sep ++ (ls.intersperse sep).flatten) := by
  cases ls with
  | nil => simp
  | cons b t => simp [List.intersperse_cons_cons, List.append_assoc]

theorem append_head_assoc (A key : List Char) (T : List Char) :
    ∃ r, ('@' :: A ++ '{' :: key ++ [',']) ++ T = '@' :: (A ++ '{' :: (key ++ ',' :: r)) :=
  ⟨T, by simp [List.append_assoc]⟩

/-- Every entry built by `_create_bibtex_entry` with type `article` starts
with the head `@article{key,`. -/
theorem createBibtexEntry_head (key title : List Char) (authors : List (List Char))
    (year : Int) (extras : List (List Char × List Char)) :
    ∃ r, createBibtexEntry "article".data key title authors year extras
      = '@' :: ("article".data ++ '{' :: (key ++ ',' :: r)) := by
  unfold createBibtexEntry
  simp only [List.cons_append, List.nil_append, flatten_intersperse_cons, List.append_assoc]
  exact ⟨_, rfl⟩

/-- The embedded key of a string with a well-formed `@word{key,` head is
that key, provided the key holds no comma or closing brace. -/
theorem specEmbeddedKey_head_gen (w key r : List Char)
    (hword : ∀ c ∈ w, isWordChar c = true) (hwne : w ≠ [])
    (hkey : ∀ c ∈ key, (!(c == ',' || c == '}')) = true) :
    specEmbeddedKey ('@' :: (w ++ '{' :: (key ++ ',' :: r))) = some key := by
  have hw := takeWhile_all_append w hword '{' (by decide) (key ++ ',' :: r)
  have hd := dropWhile_all_append w hword '{' (by decide) (key ++ ',' :: r)
  change (match (if (w ++ '{' :: (key ++ ',' :: r)).takeWhile isWordChar = [] then none
      else
        match (w ++ '{' :: (key ++ ',' :: r)).dropWhile isWordChar with
        | '{' :: r2 => some r2
        | _ => none : Option (List Char)) with
    | some r2 => some (r2.takeWhile (fun c => !(c == ',' || c == '}')))
    | none => specEmbeddedKey (w ++ '{' :: (key ++ ',' :: r))) = some key
  rw [hw, hd, if_neg hwne]
  change some ((key ++ ',' :: r).takeWhile (fun c => !(c == ',' || c == '}'))) = some key
  rw [takeWhile_all_append key hkey ',' (by decide) r]

theorem key_no_comma_brace_pred (key : List Char) (hk : ',' ∉ key) (hk2 : '}' ∉ key) :
    ∀ c ∈ key, (!(c == ',' || c == '}')) = true := by
  intro c hc
  have h1 : c ≠ ',' := fun h => hk (h ▸ hc)
  have h2 : c ≠ '}' := fun h => hk2 (h ▸ hc)
  simp [h1, h2]

/-- Records built by `_create_bibtex_entry` always embed exactly the key
they were given, provided it contains no comma or closing brace. -/
theorem specEmbeddedKey_create (key title : List Char) (authors : List (List Char))
    (year : Int) (extras : List (List Char × List Char))
    (hk : ',' ∉ key) (hk2 : '}' ∉ key) :
    specEmbeddedKey (createBibtexEntry "article".data key title authors year extras) = some key := by
  obtain ⟨r, hr⟩ := createBibtexEntry_head key title authors year extras
  rw [hr]
  exact specEmbeddedKey_head_gen "article".data key r (by decide) (by decide)
    (key_no_comma_brace_pred key hk hk2)

theorem subHeadAt_inv (entry g1 after : List Char) (h : subHeadAt entry = some (g1, after)) :
    ∃ r r2, entry = '@' :: r ∧ r.takeWhile isWordChar ≠ [] ∧
      r.dropWhile isWordChar = '{' :: r2 ∧
      r2.dropWhile (fun c => !(c == ',')) = ',' :: after ∧
      g1 = '@' :: r.takeWhile isWordChar ++ ['{'] := by
  unfold subHeadAt at h
  split at h
  next r =>
    dsimp only at h
    split at h
    · exact absurd h (by simp)
    next hwne =>
      split at h
      next r2 hdrop =>
        split at h
        · exact absurd h (by simp)
        next hkpne =>
          split at h
          next r3 hdrop2 =>
            have h' := Option.some_inj.mp h
            simp only [Prod.mk.injEq] at h'
            obtain ⟨hg, ha⟩ := h'
            exact ⟨r, r2, rfl, hwne, hdrop, by rw [hdrop2, ha], hg.symm⟩
          · exact absurd h (by simp)
      · exact absurd h (by simp)
  · exact absurd h (by simp)

/-- A key substituted by `_replace_bibtex_key` into an entry whose head the
substitution pattern matches is exactly the embedded key of the result. -/
theorem specEmbeddedKey_replace (entry newKey g1 after : List Char)
    (h : subHeadAt entry = some (g1, after)) (hk : ',' ∉ newKey) (hk2 : '}' ∉ newKey) :
    specEmbeddedKey (replaceBibtexKey entry newKey) = some newKey := by
  obtain ⟨r, r2, rfl, hwne, hdrop, hdrop2, hg1⟩ := subHeadAt_inv entry g1 after h
  have hrepl : replaceBibtexKey ('@' :: r) newKey = g1 ++ (newKey ++ ',' :: after) := by
    unfold replaceBibtexKey
    change (match subHeadAt ('@' :: r) with
      | some gr => gr.1 ++ newKey ++ ',' :: gr.2
      | none => '@' :: reSubKeyGo newKey r) = g1 ++ (newKey ++ ',' :: after)
    rw [h]
    simp
  rw [hrepl, hg1]
  have hshape : ('@' :: r.takeWhile isWordChar ++ ['{']) ++ (newKey ++ ',' :: after)
      = '@' :: (r.takeWhile isWordChar ++ '{' :: (newKey ++ ',' :: after)) := by
    simp [List.append_assoc]
  rw [hshape]
  exact specEmbeddedKey_head_gen _ newKey after (fun c hc => mem_takeWhile_pred hc) hwne
    (key_no_comma_brace_pred newKey hk hk2)

/-!  Character classification of generated keys.  -/

theorem natToDigits_digit :
    ∀ (fuel n : Nat) (c : Char), c ∈ natToDigits fuel n → c.isDigit = true := by
  intro fuel
  induction fuel with
  | zero => intro n c hc; simp [natToDigits] at hc
  | succ f ih =>
    intro n c hc
    rw [natToDigits] at hc
    by_cases h10 : n < 10
    · rw [if_pos h10] at hc
      rcases List.mem_singleton.mp hc with rfl
      unfold digitChar
      interval_cases n <;> decide
    · rw [if_neg h10] at hc
      rcases List.mem_append.mp hc with hc' | hc'
      · exact ih (n / 10) c hc'
      · rcases List.mem_singleton.mp hc' with rfl
        unfold digitChar
        have hm : n % 10 < 10 := Nat.mod_lt _ (by omega)
        set m := n % 10 with hm'
        interval_cases m <;> decide

theorem intToStr_chars (i : Int) (c : Char) (hc : c ∈ intToStr i) :
    c.isDigit = true ∨ c = '-' := by
  unfold intToStr at hc
  by_cases h : i < 0
  · rw [if_pos h] at hc
    rcases List.mem_cons.mp hc with rfl | hc'
    · exact Or.inr rfl
    · exact Or.inl (natToDigits_digit _ _ c hc')
  · rw [if_neg h] at hc
    exact Or.inl (natToDigits_digit _ _ c hc)

theorem baseKey_chars (authors : List (List Char)) (year : Int) (c : Char)
    (hc : c ∈ baseKey authors year) :
    c.isAlpha = true ∨ c.isDigit = true ∨ c = '-' := by
  unfold baseKey at hc
  rcases authors with _ | ⟨first, rest⟩
  · rcases List.mem_append.mp hc with hc' | hc'
    · have : ∀ d ∈ "Unknown".data, d.isAlpha = true := by decide
      exact Or.inl (this c hc')
    · rcases intToStr_chars year c hc' with h | h
      · exact Or.inr (Or.inl h)
      · exact Or.inr (Or.inr h)
  · rcases List.mem_append.mp hc with hc' | hc'
    · exact Or.inl (List.mem_filter.mp hc').2
    · rcases intToStr_chars year c hc' with h | h
      · exact Or.inr (Or.inl h)
      · exact Or.inr (Or.inr h)

theorem keyCollideGo_shape (base : List Char) (keys : Finset (List Char)) :
    ∀ (sfx : List Nat) (key : List Char),
      keyCollideGo base keys key sfx = key ∨
      (∃ s ∈ sfx, keyCollideGo base keys key sfx = base ++ [Char.ofNat s]) ∨
      keyCollideGo base keys key sfx = base ++ "_".data ++ natToStr keys.card := by
  intro sfx
  induction sfx with
  | nil => intro key; exact Or.inl rfl
  | cons s rest ih =>
    intro key
    rw [keyCollideGo]
    by_cases hk : key ∈ keys
    · rw [if_pos hk]
      by_cases hs : s + 1 > 122
      · rw [if_pos hs]
        exact Or.inr (Or.inr rfl)
      · rw [if_neg hs]
        rcases ih (base ++ [Char.ofNat s]) with h | ⟨s', hs', h⟩ | h
        · exact Or.inr (Or.inl ⟨s, List.mem_cons_self s rest, h⟩)
        · exact Or.inr (Or.inl ⟨s', List.mem_cons_of_mem s hs', h⟩)
        · exact Or.inr (Or.inr h)
    · rw [if_neg hk]
      exact Or.inl rfl

/-- Keys produced by `generate_bibtex_key` never contain a comma or a
closing brace. -/
theorem generateBibtexKey_clean (authors : List (List Char)) (year : Int)
    (keys : Finset (List Char)) :
    ',' ∉ generateBibtexKey authors year keys ∧ '}' ∉ generateBibtexKey authors year keys := by
  have hbase : ∀ c ∈ baseKey authors year, c ≠ ',' ∧ c ≠ '}' := by
    intro c hc
    rcases baseKey_chars authors year c hc with h | h | h
    · constructor <;> rintro rfl <;> simp at h
    · constructor <;> rintro rfl <;> simp at h
    · subst h; constructor <;> decide
  have hmain : ∀ c ∈ generateBibtexKey authors year keys, c ≠ ',' ∧ c ≠ '}' := by
    intro c hc
    unfold generateBibtexKey at hc
    rcases keyCollideGo_shape (baseKey authors year) keys (List.range' 97 26) (baseKey authors year)
      with h | ⟨s, hs, h⟩ | h
    · rw [h] at hc
      exact hbase c hc
    · rw [h] at hc
      rcases List.mem_append.mp hc with hc' | hc'
      · exact hbase c hc'
      · rcases List.mem_singleton.mp hc' with rfl
        have hrange : 97 ≤ s ∧ s < 123 := by
          have := List.mem_range'_1.mp hs
          omega
        obtain ⟨h1, h2⟩ := hrange
        interval_cases s <;> exact ⟨by decide, by decide⟩
    · rw [h] at hc
      rcases List.mem_append.mp hc with hc' | hc'
      · rcases List.mem_append.mp hc' with hc'' | hc''
        · exact hbase c hc''
        · rcases List.mem_singleton.mp hc'' with rfl
          exact ⟨by decide, by decide⟩
      · have := natToDigits_digit _ _ c hc'
        constructor <;> rintro rfl <;> simp at this
  exact ⟨fun hc => (hmain ',' hc).1 rfl, fun hc => (hmain '}' hc).2 rfl⟩

/-- C9 counterexample: a CrossRef 200 response whose body is the
field-less, comma-less entry `@article{k}` (which pybtex parses, so the
entry normalizes with the default year) produces a record whose `key`
field is `Unknown2024` while the key embedded in its `structured_entry` is
still `k`: the substitution regex `(@\w+\{)[^,]+,` finds no comma and
leaves the entry unchanged. -/
theorem c9_key_sync_cex :
    ((getMetadataFromCrossref 3 1 "10.1/x".data ∅ cexReprO cexResps).1.map
        fun m => (m.bibtex_key, specEmbeddedKey m.bibtex_entry))
      = some ("Unknown2024".data, some "k".data) ∧
    ("Unknown2024".data : List Char) ≠ "k".data := by decide

/-- C9 (corrected): a record built via `_create_bibtex_entry` always
embeds exactly its `key` field; a record whose structured entry's head the
substitution pattern `(@\w+\{)[^,]+,` matches embeds exactly the
substituted key; and keys produced by `generate_bibtex_key` never contain
the characters (`,`, `}`) that could break the embedding. -/
theorem c9_key_sync_amended :
    (∀ (key title : List Char) (authors : List (List Char)) (year : Int)
      (extras : List (List Char × List Char)), ',' ∉ key → '}' ∉ key →
      specEmbeddedKey (createBibtexEntry "article".data key title authors year extras) = some key) ∧
    (∀ entry newKey g1 after, subHeadAt entry = some (g1, after) →
      ',' ∉ newKey → '}' ∉ newKey →
      specEmbeddedKey (replaceBibtexKey entry newKey) = some newKey) ∧
    (∀ (authors : List (List Char)) (year : Int) (keys : Finset (List Char)),
      ',' ∉ generateBibtexKey authors year keys ∧ '}' ∉ generateBibtexKey authors year keys) :=
  ⟨fun key title authors year extras hk hk2 =>
      specEmbeddedKey_create key title authors year extras hk hk2,
   fun entry newKey g1 after h hk hk2 =>
      specEmbeddedKey_replace entry newKey g1 after h hk hk2,
   fun authors year keys => generateBibtexKey_clean authors year keys⟩

/-- Witness for C9 at concrete data: a created entry with key `K2020`
embeds `K2020`; replacing the key of `@article{old, t}` with `New` embeds
`New`. -/
theorem c9_key_sync_witness :
    specEmbeddedKey (createBibtexEntry "article".data "K2020".data "T".data ["A".data] 2020 [])
      = some "K2020".data ∧
    specEmbeddedKey (replaceBibtexKey "@article\x7bold, t\x7d".data "New".data)
      = some "New".data := by
  refine ⟨c9_key_sync_amended.1 "K2020".data "T".data ["A".data] 2020 [] (by decide) (by decide),
    c9_key_sync_amended.2.1 "@article\x7bold, t\x7d".data "New".data "@article\x7b".data
      " t\x7d".data (by decide) (by decide) (by decide)⟩
